import Mathlib

/-
Verification of the geobox codec (geobox.py) and of the concentric store
query (models.py) of the 24-hours-in-SF App Engine demo.

The codec works on Python Decimal values with the context precision set to
resolution + 3. Every intermediate value produced by the codec on the
coordinate ranges the program handles is an integer multiple of
10 ^ (-resolution) of magnitude below 10 ^ 3, hence has at most
resolution + 3 significant digits, so every context-rounded decimal
operation is exact there; the embedding therefore models the decimal
pipeline by exact rational arithmetic, and models the one inexact event,
the InvalidOperation signal of the remainder operator, explicitly.
-/

section GeoboxVerification

/- The Batteries rational operations are irreducible by default, which
blocks kernel evaluation of concrete geobox computations; restore the
default reducibility for this development. -/
attribute [local semireducible] Rat.ofScientific Rat.add Rat.sub Rat.mul Rat.inv

namespace Geobox

/-- Integer part of Python Decimal division as used by the remainder
operator: the quotient is rounded toward zero. -/
def decTrunc (q : ℚ) : ℤ := q.num.tdiv q.den

/-- Python Decimal remainder operator: x - trunc(x / m) * m, so the result
carries the sign of the dividend x. The operation is exact whenever it
does not signal InvalidOperation. -/
def decRem (x m : ℚ) : ℚ := x - (decTrunc (x / m) : ℚ) * m

/-- Rounding of a rational to the nearest integer, as the fixed point
printf formatting rounds its argument. On every value the codec formats
the argument is already an integer, so the tie-breaking convention is
never exercised there. -/
def decRound (q : ℚ) : ℤ := (q + 1 / 2).floor

/-- decTrunc rounds toward zero: it is the floor for nonnegative
arguments and the ceiling for negative ones. -/
theorem decTrunc_eq (q : ℚ) : decTrunc q = if 0 ≤ q then ⌊q⌋ else ⌈q⌉ := by
  have hden : (0 : ℤ) ≤ (q.den : ℤ) := Int.natCast_nonneg q.den
  by_cases h : 0 ≤ q
  · have hnum : 0 ≤ q.num := Rat.num_nonneg.mpr h
    rw [decTrunc, if_pos h, Int.tdiv_eq_ediv hnum hden, Rat.floor_def]
  · have hnum : q.num ≤ 0 := le_of_lt (Rat.num_neg.mpr (lt_of_not_le h))
    have h1 : q.num.tdiv q.den = -((-q.num).tdiv q.den) := by
      rw [← Int.neg_tdiv, neg_neg]
    have h2 : (-q.num).tdiv q.den = (-q.num) / (q.den : ℤ) :=
      Int.tdiv_eq_ediv (by omega) hden
    have h3 : ⌊-q⌋ = (-q.num) / (q.den : ℤ) := by
      rw [Rat.floor_def]; rfl
    have h4 : (⌈q⌉ : ℤ) = -⌊-q⌋ := rfl
    rw [decTrunc, if_neg h, h1, h2, h4, h3]

/-- decRound is the Mathlib rounding to the nearest integer. -/
theorem decRound_eq (q : ℚ) : decRound q = round q := by
  rw [round_eq, decRound, Rat.floor_def', Rat.floor_def]

/-- Embedding of the function round_slice_down of geobox.py, with the
working precision prec threaded explicitly (the source sets the process
wide decimal context to resolution + 3 before calling it). The remainder
operator signals InvalidOperation exactly when the divisor is zero or when
the integer quotient needs more than prec digits, that is when its
absolute value is at least 10 ^ prec; the source catches that signal and
returns the coordinate unchanged. -/
def round_slice_down (prec : ℕ) (coord slice : ℚ) : ℚ :=
  if slice = 0 ∨ 10 ^ prec ≤ (decTrunc (coord / slice)).natAbs then coord
  else
    let remainder := decRem coord slice
    if 0 < coord then coord - remainder + slice else coord - remainder

/-- Embedding of compute_tuple of geobox.py. The source parses lat and lon
with Decimal(str(...)), which denotes an exact rational, so the model
takes the denoted rationals directly; the step written
Decimal(str(1.0 * slice * 10 ** -resolution)) recovers exactly
slice * 10 ^ (-resolution) because str rounds the double to 12 significant
digits and slice has fewer. -/
def compute_tuple (lat lon : ℚ) (resolution : ℕ) (slice : ℤ) : ℚ × ℚ × ℚ × ℚ :=
  let prec := resolution + 3
  let step : ℚ := (slice : ℚ) / 10 ^ resolution
  let adjusted_lat := round_slice_down prec lat step
  let adjusted_lon := round_slice_down prec lon step
  (adjusted_lat, adjusted_lon - step, adjusted_lat - step, adjusted_lon)

/-- Decimal digit character for d mod 10. -/
def digitChar (d : ℕ) : Char := Char.ofNat (48 + d % 10)

/-- The exactly n low decimal digits of a natural number, most significant
first, zero padded on the left, as printf fixed point formatting renders a
fractional part. -/
def natDigitsPadded : ℕ → ℕ → List Char
  | 0, _ => []
  | n + 1, v => natDigitsPadded n (v / 10) ++ [digitChar (v % 10)]

/-- Formatting of one geobox coordinate by the pattern
"%0.<resolution>f" used in format_tuple of geobox.py: a sign for negative
values, the integer digits, and exactly resolution fractional digits with
trailing zeros kept (no decimal point at resolution zero, as printf). In
the codec every formatted value times 10 ^ resolution is an integer, so
the rounding step of the model is the identity there. -/
def format_value (resolution : ℕ) (v : ℚ) : String :=
  let n : ℤ := decRound (v * 10 ^ resolution)
  let sign := if n < 0 then "-" else ""
  let m := n.natAbs
  let ip := m / 10 ^ resolution
  let fp := m % 10 ^ resolution
  if resolution = 0 then sign ++ Nat.repr ip
  else sign ++ Nat.repr ip ++ "." ++ String.mk (natDigitsPadded resolution fp)

/-- Embedding of format_tuple of geobox.py: the four coordinates of the
box, each at resolution fractional digits, joined by the pipe character. -/
def format_tuple (values : ℚ × ℚ × ℚ × ℚ) (resolution : ℕ) : String :=
  format_value resolution values.1 ++ "|" ++ format_value resolution values.2.1 ++ "|"
    ++ format_value resolution values.2.2.1 ++ "|" ++ format_value resolution values.2.2.2

/-- Embedding of compute of geobox.py. -/
def compute (lat lon : ℚ) (resolution : ℕ) (slice : ℤ) : String :=
  format_tuple (compute_tuple lat lon resolution slice) resolution

/-- Embedding of compute_set of geobox.py: the 3 by 3 neighborhood of the
primary box, row major in the latitude offset i and the longitude offset
j, each ranging over -1, 0, 1; the offsets are applied to the two latitude
components and the two longitude components of the primary tuple. -/
def compute_set (lat lon : ℚ) (resolution : ℕ) (slice : ℤ) : List String :=
  let primary_box := compute_tuple lat lon resolution slice
  let step : ℚ := (slice : ℚ) / 10 ^ resolution
  ([-1, 0, 1] : List ℤ).flatMap fun i =>
    ([-1, 0, 1] : List ℤ).map fun j =>
      format_tuple
        (primary_box.1 + step * i, primary_box.2.1 + step * j,
         primary_box.2.2.1 + step * i, primary_box.2.2.2 + step * j)
        resolution

/-- The grid boundary index the codec snaps a coordinate to: one above the
floor of coord / step for positive coordinates, the ceiling of
coord / step otherwise. -/
def gridIdx (coord step : ℚ) : ℤ :=
  if 0 < coord then ⌊coord / step⌋ + 1 else ⌈coord / step⌉

end Geobox

namespace Models

/-- The geometric part of a store record of models.py: its name (the
identity key used by the dedup of Store.query) and the coordinates of its
location property. -/
structure Store where
  name : String
  lat : ℚ
  lon : ℚ
deriving DecidableEq

/-- Embedding of the configuration table GEOBOX_CONFIGS of models.py:
ordered (resolution, slice, use_set) tiers. -/
def GEOBOX_CONFIGS : List (ℕ × ℤ × Bool) :=
  [(4, 5, true), (3, 2, true), (3, 8, false), (3, 16, false), (2, 5, false)]

/-- The Python comparison params < min_params between a 3 element config
tuple and the 2 element minimum tuple: lexicographic on resolution then
slice; when both agree the config tuple is the longer one, hence the
greater, and the comparison is false. -/
def params_lt (p : ℕ × ℤ × Bool) (m : ℕ × ℤ) : Prop :=
  p.1 < m.1 ∨ (p.1 = m.1 ∧ p.2.1 < m.2)

instance params_lt_decidable : ∀ p m, Decidable (params_lt p m) := fun p m => by
  unfold params_lt
  infer_instance

/-- The dictionary insertion loop of Store.query merging one fetched page
into the name keyed accumulator: a record whose name is already present is
skipped, the others are appended in fetch order. -/
def merge_results (found : List Store) : List Store → List Store
  | [] => found
  | r :: rest =>
    if found.any (fun s => s.name == r.name) then merge_results found rest
    else merge_results (found ++ [r]) rest

/-- The concentric loop of Store.query: walks the configuration table,
stopping before a tier once the accumulator holds at least max_results
records or once the tier compares below min_params, and otherwise fetches
the primary cell key of the query point at that tier and merges the
returned page into the accumulator. The result carries the accumulator and
the list of tiers for which a store lookup was issued. The store lookup
(the App Engine datastore query on the geoboxes list property with the day
of week filter and the page limit of 50) is abstracted as the function
fetch from the cell key to the returned page. -/
def query_loop (fetch : String → List Store) (lat lon : ℚ) (max_results : ℕ)
    (min_params : ℕ × ℤ) :
    List (ℕ × ℤ × Bool) → List Store → List Store × List (ℕ × ℤ × Bool)
  | [], found => (found, [])
  | p :: rest, found =>
    if max_results ≤ found.length then (found, [])
    else if params_lt p min_params then (found, [])
    else
      let box := Geobox.compute lat lon p.1 p.2.1
      let next := query_loop fetch lat lon max_results min_params rest
        (merge_results found (fetch box))
      (next.1, p :: next.2)

/-- The ordering used by the final sort of Store.query: Python sorts the
(distance, store) tuples, comparing the distances first and, on equal
distances, comparing the store objects themselves through the interpreter
object ordering, which is abstracted as the parameter store_ord. -/
def pair_lt (store_ord : Store → Store → Bool) (a b : ℚ × Store) : Prop :=
  a.1 < b.1 ∨ (a.1 = b.1 ∧ store_ord a.2 b.2 = true)

instance pair_lt_decidable (store_ord : Store → Store → Bool) :
    DecidableRel (pair_lt store_ord) := fun a b => by
  unfold pair_lt
  infer_instance

/-- Embedding of Store.query of models.py. The store lookup is the
parameter fetch; the great circle distance computed by earth_distance
through binary floating point trigonometry is abstracted as the parameter
dist; the interpreter ordering applied to store objects on distance ties
is the parameter store_ord; the iteration order of the accumulator
dictionary is modelled as insertion order. -/
def query (fetch : String → List Store) (dist : Store → ℚ)
    (store_ord : Store → Store → Bool) (lat lon : ℚ) (max_results : ℕ)
    (min_params : ℕ × ℤ) : List (ℚ × Store) :=
  let found := (query_loop fetch lat lon max_results min_params GEOBOX_CONFIGS []).1
  List.insertionSort (pair_lt store_ord) (found.map fun s => (dist s, s))

end Models

namespace Geobox

/-- C1: the geobox codec reproduces the three reference scenarios exactly:
resolution 6 slice 10, resolution 7 slice 1, and resolution 4 slice 17 at
the point (37.78452, -122.39532). -/
theorem compute_reference_scenarios :
    compute (37.78452 : ℚ) (-122.39532 : ℚ) 6 10
        = "37.784530|-122.395330|37.784520|-122.395320" ∧
      compute (37.78452 : ℚ) (-122.39532 : ℚ) 7 1
        = "37.7845201|-122.3953201|37.7845200|-122.3953200" ∧
      compute (37.78452 : ℚ) (-122.39532 : ℚ) 4 17
        = "37.7859|-122.3966|37.7842|-122.3949" := by
  decide

/-- Length of the padded digit rendering. -/
theorem natDigitsPadded_length (n v : ℕ) : (natDigitsPadded n v).length = n := by
  induction n generalizing v with
  | zero => rfl
  | succ n ih => simp [natDigitsPadded, ih]

/-- Every character produced by digitChar is a decimal digit. -/
theorem digitChar_isDigit (d : ℕ) : (digitChar d).isDigit = true := by
  have h : d % 10 < 10 := Nat.mod_lt _ (by norm_num)
  rw [digitChar]
  interval_cases h : d % 10 <;> decide

/-- Every character of the padded digit rendering is a decimal digit. -/
theorem natDigitsPadded_isDigit (n v : ℕ) : ∀ c ∈ natDigitsPadded n v, c.isDigit = true := by
  induction n generalizing v with
  | zero => intro c hc; simp [natDigitsPadded] at hc
  | succ n ih =>
    intro c hc
    simp only [natDigitsPadded, List.mem_append, List.mem_singleton] at hc
    rcases hc with hc | hc
    · exact ih _ c hc
    · subst hc; exact digitChar_isDigit _

/-- Decomposition of a formatted value at positive resolution: some prefix
(the sign and the integer digits), a decimal point, and exactly resolution
digit characters. -/
theorem format_value_decomposition (resolution : ℕ) (v : ℚ) (hr : 1 ≤ resolution) :
    ∃ g d : String, format_value resolution v = g ++ "." ++ d ∧
      d.length = resolution ∧ ∀ c ∈ d.data, c.isDigit = true := by
  refine ⟨(if decRound (v * 10 ^ resolution) < 0 then "-" else "")
      ++ Nat.repr ((decRound (v * 10 ^ resolution)).natAbs / 10 ^ resolution),
    String.mk (natDigitsPadded resolution
      ((decRound (v * 10 ^ resolution)).natAbs % 10 ^ resolution)), ?_, ?_, ?_⟩
  · rw [format_value, if_neg (by omega)]
  · show (natDigitsPadded _ _).length = _
    exact natDigitsPadded_length _ _
  · exact natDigitsPadded_isDigit _ _

/-- decTrunc is the floor on nonnegative arguments. -/
theorem decTrunc_nonneg {q : ℚ} (h : 0 ≤ q) : decTrunc q = ⌊q⌋ := by
  rw [decTrunc_eq, if_pos h]

/-- decTrunc is the ceiling on nonpositive arguments. -/
theorem decTrunc_nonpos {q : ℚ} (h : q ≤ 0) : decTrunc q = ⌈q⌉ := by
  rw [decTrunc_eq]
  by_cases h0 : 0 ≤ q
  · have : q = 0 := le_antisymm h h0
    subst this
    simp
  · rw [if_neg h0]

/-- The magnitude of the truncated quotient never exceeds the magnitude of
the quotient. -/
theorem abs_decTrunc_le (q : ℚ) : |((decTrunc q : ℤ) : ℚ)| ≤ |q| := by
  by_cases h : 0 ≤ q
  · rw [decTrunc_nonneg h, abs_of_nonneg h,
      abs_of_nonneg (by exact_mod_cast Int.floor_nonneg.mpr h)]
    exact Int.floor_le q
  · have hq : q ≤ 0 := le_of_not_le h
    have hc : ⌈q⌉ ≤ 0 := Int.ceil_le.mpr (by exact_mod_cast hq)
    rw [decTrunc_nonpos hq, abs_of_nonpos hq, abs_of_nonpos (by exact_mod_cast hc)]
    simpa using neg_le_neg (Int.le_ceil q)

/-- The remainder operation does not signal InvalidOperation on arguments
whose quotient magnitude stays under the precision threshold. -/
theorem decTrunc_natAbs_lt (x step : ℚ) (p : ℕ) (hstep : 0 < step)
    (h : |x| < 10 ^ p * step) : (decTrunc (x / step)).natAbs < 10 ^ p := by
  have hq : |x / step| < 10 ^ p := by
    rw [abs_div, abs_of_pos hstep, div_lt_iff₀ hstep]
    exact h
  have habs : |((decTrunc (x / step) : ℤ) : ℚ)| < 10 ^ p :=
    lt_of_le_of_lt (abs_decTrunc_le _) hq
  have hcast : (((decTrunc (x / step)).natAbs : ℤ) : ℚ) < ((10 ^ p : ℕ) : ℚ) := by
    rw [Int.cast_natAbs]
    push_cast
    push_cast at habs
    exact habs
  exact_mod_cast hcast

/-- Evaluation of round_slice_down when the remainder signals nothing: the
result is the grid boundary at index gridIdx. -/
theorem round_slice_down_eq_gridIdx (p : ℕ) (coord step : ℚ)
    (hstep : 0 < step) (hg : (decTrunc (coord / step)).natAbs < 10 ^ p) :
    round_slice_down p coord step = (gridIdx coord step : ℚ) * step := by
  have hne : ¬ (step = 0 ∨ 10 ^ p ≤ (decTrunc (coord / step)).natAbs) := by
    push_neg
    exact ⟨ne_of_gt hstep, hg⟩
  rw [round_slice_down, if_neg hne]
  by_cases hc : 0 < coord
  · have hq : 0 ≤ coord / step := le_of_lt (div_pos hc hstep)
    rw [if_pos hc, gridIdx, if_pos hc, decRem, decTrunc_nonneg hq]
    push_cast
    ring
  · have hq : coord / step ≤ 0 :=
      div_nonpos_of_nonpos_of_nonneg (le_of_not_lt hc) (le_of_lt hstep)
    rw [if_neg hc, gridIdx, if_neg hc, decRem, decTrunc_nonpos hq]
    ring

/-- The snapped boundary bounds the coordinate from above, and lies less
than one step above it. -/
theorem gridIdx_bounds (coord step : ℚ) (hstep : 0 < step) :
    (gridIdx coord step : ℚ) * step - step ≤ coord ∧
      coord ≤ (gridIdx coord step : ℚ) * step := by
  have hcoord : coord / step * step = coord := div_mul_cancel₀ coord (ne_of_gt hstep)
  by_cases hc : 0 < coord
  · rw [gridIdx, if_pos hc]
    constructor
    · have h1 : (⌊coord / step⌋ : ℚ) ≤ coord / step := Int.floor_le _
      have h2 : (⌊coord / step⌋ : ℚ) * step ≤ coord / step * step :=
        mul_le_mul_of_nonneg_right h1 (le_of_lt hstep)
      push_cast
      rw [hcoord] at h2
      linarith
    · have h1 : coord / step < (⌊coord / step⌋ : ℚ) + 1 := Int.lt_floor_add_one _
      have h2 : coord / step * step ≤ ((⌊coord / step⌋ : ℚ) + 1) * step :=
        mul_le_mul_of_nonneg_right (le_of_lt h1) (le_of_lt hstep)
      push_cast
      rw [hcoord] at h2
      linarith
  · rw [gridIdx, if_neg hc]
    constructor
    · have h1 : (⌈coord / step⌉ : ℚ) - 1 < coord / step := by
        have := Int.ceil_lt_add_one (coord / step)
        linarith
      have h2 : ((⌈coord / step⌉ : ℚ) - 1) * step ≤ coord / step * step :=
        mul_le_mul_of_nonneg_right (le_of_lt h1) (le_of_lt hstep)
      rw [hcoord] at h2
      linarith
    · have h1 : coord / step ≤ (⌈coord / step⌉ : ℚ) := Int.le_ceil _
      have h2 : coord / step * step ≤ (⌈coord / step⌉ : ℚ) * step :=
        mul_le_mul_of_nonneg_right h1 (le_of_lt hstep)
      rw [hcoord] at h2
      linarith

/-- Every point strictly between two adjacent grid boundaries snaps to the
upper one, whatever its sign. -/
theorem gridIdx_interior (m : ℤ) (y step : ℚ) (hstep : 0 < step)
    (h1 : (m : ℚ) * step - step < y) (h2 : y < (m : ℚ) * step) :
    gridIdx y step = m := by
  have hq1 : (m : ℚ) - 1 < y / step := by
    rw [lt_div_iff₀ hstep]
    linarith
  have hq2 : y / step < (m : ℚ) := by
    rw [div_lt_iff₀ hstep]
    linarith
  by_cases hy : 0 < y
  · rw [gridIdx, if_pos hy]
    have : ⌊y / step⌋ = m - 1 := by
      rw [Int.floor_eq_iff]
      constructor
      · push_cast
        linarith
      · push_cast
        linarith
    omega
  · rw [gridIdx, if_neg hy]
    rw [Int.ceil_eq_iff]
    constructor
    · linarith
    · exact le_of_lt hq2

/-- A point strictly inside the snapped cell of x snaps to the same
boundary as x. -/
theorem round_slice_down_interior (p : ℕ) (x y step : ℚ) (hstep : 0 < step)
    (hgx : (decTrunc (x / step)).natAbs < 10 ^ p)
    (hgy : (decTrunc (y / step)).natAbs < 10 ^ p)
    (h1 : round_slice_down p x step - step < y)
    (h2 : y < round_slice_down p x step) :
    round_slice_down p y step = round_slice_down p x step := by
  rw [round_slice_down_eq_gridIdx p x step hstep hgx] at h1 h2 ⊢
  rw [round_slice_down_eq_gridIdx p y step hstep hgy,
    gridIdx_interior (gridIdx x step) y step hstep h1 h2]

/-- The snapped cell of round_slice_down contains the coordinate whenever
the remainder signals nothing. -/
theorem round_slice_down_bounds (p : ℕ) (x step : ℚ) (hstep : 0 < step)
    (hg : (decTrunc (x / step)).natAbs < 10 ^ p) :
    round_slice_down p x step - step ≤ x ∧ x ≤ round_slice_down p x step := by
  rw [round_slice_down_eq_gridIdx p x step hstep hg]
  exact gridIdx_bounds x step hstep

/-- Unfolding of compute_tuple into its four components. -/
theorem compute_tuple_def (lat lon : ℚ) (resolution : ℕ) (slice : ℤ) :
    compute_tuple lat lon resolution slice =
      (round_slice_down (resolution + 3) lat ((slice : ℚ) / 10 ^ resolution),
       round_slice_down (resolution + 3) lon ((slice : ℚ) / 10 ^ resolution)
         - (slice : ℚ) / 10 ^ resolution,
       round_slice_down (resolution + 3) lat ((slice : ℚ) / 10 ^ resolution)
         - (slice : ℚ) / 10 ^ resolution,
       round_slice_down (resolution + 3) lon ((slice : ℚ) / 10 ^ resolution)) := rfl

end Geobox

namespace Geobox

/-- C3 counterexample: at the nonpositive coordinate -1/2 with step 1/5
the result of round_slice_down is -2/5, which is strictly above the
coordinate, so the result is not the grid boundary at or below it. -/
theorem round_slice_down_nonpos_counterexample :
    (-(1/2) : ℚ) ≤ 0 ∧ ¬ round_slice_down 9 (-(1/2) : ℚ) (1/5) ≤ (-(1/2) : ℚ) := by
  decide

/-- C3 amended: for coord at most 0 and a positive step, when the
remainder operation does not signal InvalidOperation, round_slice_down
returns coord minus the truncating remainder (which carries the sign of
coord), and that value is the grid boundary at or above coord, strictly
below coord + step: a ceiling toward zero, not a floor. -/
theorem round_slice_down_nonpositive (p : ℕ) (coord step : ℚ)
    (hc : coord ≤ 0) (hstep : 0 < step)
    (hg : (decTrunc (coord / step)).natAbs < 10 ^ p) :
    round_slice_down p coord step = coord - decRem coord step ∧
      coord ≤ round_slice_down p coord step ∧
      round_slice_down p coord step < coord + step := by
  have hne : ¬ (step = 0 ∨ 10 ^ p ≤ (decTrunc (coord / step)).natAbs) := by
    push_neg
    exact ⟨ne_of_gt hstep, hg⟩
  have hval : round_slice_down p coord step = coord - decRem coord step := by
    rw [round_slice_down, if_neg hne, if_neg (not_lt.mpr hc)]
  refine ⟨hval, ?_, ?_⟩
  · rw [hval, decRem]
    have hq : coord / step ≤ 0 := div_nonpos_of_nonpos_of_nonneg hc (le_of_lt hstep)
    have ht : coord / step ≤ ((decTrunc (coord / step) : ℤ) : ℚ) := by
      rw [decTrunc_eq]
      by_cases h0 : 0 ≤ coord / step
      · rw [if_pos h0]
        have : coord / step = 0 := le_antisymm hq h0
        rw [this]
        norm_num
      · rw [if_neg h0]
        exact Int.le_ceil _
    calc coord = coord / step * step := (div_mul_cancel₀ coord (ne_of_gt hstep)).symm
      _ ≤ ((decTrunc (coord / step) : ℤ) : ℚ) * step :=
          mul_le_mul_of_nonneg_right ht (le_of_lt hstep)
      _ = coord - (coord - ((decTrunc (coord / step) : ℤ) : ℚ) * step) := by ring
  · rw [hval, decRem]
    have ht : ((decTrunc (coord / step) : ℤ) : ℚ) < coord / step + 1 := by
      rw [decTrunc_eq]
      by_cases h0 : 0 ≤ coord / step
      · rw [if_pos h0]
        exact lt_of_le_of_lt (Int.floor_le _) (by linarith)
      · rw [if_neg h0]
        exact Int.ceil_lt_add_one _
    calc coord - (coord - ((decTrunc (coord / step) : ℤ) : ℚ) * step)
        = ((decTrunc (coord / step) : ℤ) : ℚ) * step := by ring
      _ < (coord / step + 1) * step := mul_lt_mul_of_pos_right ht hstep
      _ = coord + step := by
          field_simp

/-- C3 amended witness at coord -1/2, step 1/5, precision 9. -/
theorem round_slice_down_nonpositive_witness :
    round_slice_down 9 (-(1/2) : ℚ) (1/5) = (-(1/2) : ℚ) - decRem (-(1/2) : ℚ) (1/5) ∧
      (-(1/2) : ℚ) ≤ round_slice_down 9 (-(1/2) : ℚ) (1/5) ∧
      round_slice_down 9 (-(1/2) : ℚ) (1/5) < (-(1/2) : ℚ) + 1/5 :=
  round_slice_down_nonpositive 9 (-(1/2) : ℚ) (1/5) (by norm_num) (by norm_num) (by decide)

/-- C4: compute_set always yields exactly 9 keys and its middle entry (the
offset (0,0), index 4 in row major order) is exactly the output of compute
on the same inputs; at resolution 6 and slice 25 on (37.78452, -122.39532)
it produces the 3 by 3 grid of keys with step 0.000025 in both axes around
the primary cell. -/
theorem compute_set_neighborhood :
    (∀ (lat lon : ℚ) (resolution : ℕ) (slice : ℤ),
        (compute_set lat lon resolution slice).length = 9 ∧
          (compute_set lat lon resolution slice)[4]? =
            some (compute lat lon resolution slice)) ∧
      compute_set (37.78452 : ℚ) (-122.39532 : ℚ) 6 25 =
        ["37.784500|-122.395350|37.784475|-122.395325",
         "37.784500|-122.395325|37.784475|-122.395300",
         "37.784500|-122.395300|37.784475|-122.395275",
         "37.784525|-122.395350|37.784500|-122.395325",
         "37.784525|-122.395325|37.784500|-122.395300",
         "37.784525|-122.395300|37.784500|-122.395275",
         "37.784550|-122.395350|37.784525|-122.395325",
         "37.784550|-122.395325|37.784525|-122.395300",
         "37.784550|-122.395300|37.784525|-122.395275"] := by
  constructor
  · intro lat lon resolution slice
    constructor
    · simp [compute_set]
    · simp [compute_set, compute]
  · decide

/-- C2: for coordinates in the latitude and longitude ranges, at positive
resolution and slice, the quantized cell returned by compute_tuple
contains the coordinate pair within its boundary, and every point strictly
inside the box yields exactly the same key string under compute. -/
theorem compute_cell_containment_rederivation (lat lon : ℚ) (resolution : ℕ)
    (slice : ℤ) (_hr : 1 ≤ resolution) (hs : 1 ≤ slice)
    (hlat : |lat| ≤ 90) (hlon : |lon| ≤ 180) :
    ((compute_tuple lat lon resolution slice).2.2.1 ≤ lat ∧
        lat ≤ (compute_tuple lat lon resolution slice).1 ∧
        (compute_tuple lat lon resolution slice).2.1 ≤ lon ∧
        lon ≤ (compute_tuple lat lon resolution slice).2.2.2) ∧
      ∀ lat2 lon2 : ℚ,
        (compute_tuple lat lon resolution slice).2.2.1 < lat2 →
        lat2 < (compute_tuple lat lon resolution slice).1 →
        (compute_tuple lat lon resolution slice).2.1 < lon2 →
        lon2 < (compute_tuple lat lon resolution slice).2.2.2 →
        compute lat2 lon2 resolution slice = compute lat lon resolution slice := by
  have hs' : (0 : ℚ) < (slice : ℚ) := by exact_mod_cast lt_of_lt_of_le Int.zero_lt_one hs
  have hs1 : (1 : ℚ) ≤ (slice : ℚ) := by exact_mod_cast hs
  have hpow : (0 : ℚ) < 10 ^ resolution := by positivity
  have hpow1 : (1 : ℚ) ≤ 10 ^ resolution := one_le_pow₀ (by norm_num)
  have hstep : 0 < (slice : ℚ) / 10 ^ resolution := div_pos hs' hpow
  have hstep_le : (slice : ℚ) / 10 ^ resolution ≤ (slice : ℚ) :=
    div_le_self (le_of_lt hs') hpow1
  have hthresh : (10 : ℚ) ^ (resolution + 3) * ((slice : ℚ) / 10 ^ resolution)
      = 1000 * (slice : ℚ) := by
    rw [pow_add]
    field_simp
    ring
  have hlat' := abs_le.mp hlat
  have hlon' := abs_le.mp hlon
  have hg_lat : (decTrunc (lat / ((slice : ℚ) / 10 ^ resolution))).natAbs
      < 10 ^ (resolution + 3) :=
    decTrunc_natAbs_lt _ _ _ hstep (by
      rw [hthresh]
      calc |lat| ≤ 90 := hlat
        _ < 1000 * (slice : ℚ) := by linarith)
  have hg_lon : (decTrunc (lon / ((slice : ℚ) / 10 ^ resolution))).natAbs
      < 10 ^ (resolution + 3) :=
    decTrunc_natAbs_lt _ _ _ hstep (by
      rw [hthresh]
      calc |lon| ≤ 180 := hlon
        _ < 1000 * (slice : ℚ) := by linarith)
  have hb_lat := round_slice_down_bounds (resolution + 3) lat _ hstep hg_lat
  have hb_lon := round_slice_down_bounds (resolution + 3) lon _ hstep hg_lon
  constructor
  · exact ⟨hb_lat.1, hb_lat.2, hb_lon.1, hb_lon.2⟩
  · intro lat2 lon2 h1 h2 h3 h4
    have hlat2_lo : round_slice_down (resolution + 3) lat ((slice : ℚ) / 10 ^ resolution)
        - (slice : ℚ) / 10 ^ resolution < lat2 := h1
    have hlat2_hi : lat2
        < round_slice_down (resolution + 3) lat ((slice : ℚ) / 10 ^ resolution) := h2
    have hlon2_lo : round_slice_down (resolution + 3) lon ((slice : ℚ) / 10 ^ resolution)
        - (slice : ℚ) / 10 ^ resolution < lon2 := h3
    have hlon2_hi : lon2
        < round_slice_down (resolution + 3) lon ((slice : ℚ) / 10 ^ resolution) := h4
    have habs_lat2 : |lat2| < 1000 * (slice : ℚ) := by
      rw [abs_lt]
      constructor
      · linarith [hb_lat.1, hb_lat.2]
      · linarith [hb_lat.1, hb_lat.2]
    have habs_lon2 : |lon2| < 1000 * (slice : ℚ) := by
      rw [abs_lt]
      constructor
      · linarith [hb_lon.1, hb_lon.2]
      · linarith [hb_lon.1, hb_lon.2]
    have hg_lat2 : (decTrunc (lat2 / ((slice : ℚ) / 10 ^ resolution))).natAbs
        < 10 ^ (resolution + 3) :=
      decTrunc_natAbs_lt _ _ _ hstep (by rw [hthresh]; exact habs_lat2)
    have hg_lon2 : (decTrunc (lon2 / ((slice : ℚ) / 10 ^ resolution))).natAbs
        < 10 ^ (resolution + 3) :=
      decTrunc_natAbs_lt _ _ _ hstep (by rw [hthresh]; exact habs_lon2)
    have heq_lat : round_slice_down (resolution + 3) lat2 ((slice : ℚ) / 10 ^ resolution)
        = round_slice_down (resolution + 3) lat ((slice : ℚ) / 10 ^ resolution) :=
      round_slice_down_interior _ _ _ _ hstep hg_lat hg_lat2 hlat2_lo hlat2_hi
    have heq_lon : round_slice_down (resolution + 3) lon2 ((slice : ℚ) / 10 ^ resolution)
        = round_slice_down (resolution + 3) lon ((slice : ℚ) / 10 ^ resolution) :=
      round_slice_down_interior _ _ _ _ hstep hg_lon hg_lon2 hlon2_lo hlon2_hi
    show compute lat2 lon2 resolution slice = compute lat lon resolution slice
    rw [compute, compute]
    congr 1
    rw [compute_tuple_def, compute_tuple_def, heq_lat, heq_lon]

/-- C2 witness: the interior point (37.784525, -122.395325) of the cell of
(37.78452, -122.39532) at resolution 6 slice 10 yields the same key. -/
theorem compute_cell_containment_rederivation_witness :
    compute (37.784525 : ℚ) (-122.395325 : ℚ) 6 10
      = compute (37.78452 : ℚ) (-122.39532 : ℚ) 6 10 :=
  (compute_cell_containment_rederivation (37.78452 : ℚ) (-122.39532 : ℚ) 6 10
      (by norm_num) (by norm_num) (by rw [abs_le]; constructor <;> norm_num)
      (by rw [abs_le]; constructor <;> norm_num)).2
    (37.784525 : ℚ) (-122.395325 : ℚ) (by decide) (by decide) (by decide) (by decide)

/-- C8 counterexample: with slice 0 the codec performs no validation and
still returns a key (the InvalidOperation raised by the remainder against
a zero step is caught, making quantization a no-op), instead of rejecting
the input before any arithmetic. -/
theorem compute_slice_zero_counterexample :
    compute (37.78452 : ℚ) (-122.39532 : ℚ) 6 0
      = "37.784520|-122.395320|37.784520|-122.395320" := by
  decide

/-- C8 amended: the codec has no validation boundary; for slice 0 the
quantization is a no-op for both coordinates and compute_tuple returns the
degenerate box made of the input point itself, from which compute formats
an ordinary key. -/
theorem compute_tuple_slice_zero (lat lon : ℚ) (resolution : ℕ) :
    compute_tuple lat lon resolution 0 = (lat, lon, lat, lon) := by
  simp [compute_tuple, round_slice_down]

/-- C9 counterexample: the key of the first reference scenario has 43
characters, not 4 * resolution + 3 = 27. -/
theorem compute_length_counterexample :
    ¬ (compute (37.78452 : ℚ) (-122.39532 : ℚ) 6 10).length = 4 * 6 + 3 := by
  decide

/-- C9 amended: for every input at positive resolution the key of compute
is four fields joined by the pipe character, each field carrying exactly
resolution fractional digit characters after its decimal point (trailing
zeros preserved); the total length is the 4 * resolution + 3 characters of
the fractional digits and separators plus the four integer parts with
their decimal points and signs, so it exceeds 4 * resolution + 3. -/
theorem compute_four_fields (lat lon : ℚ) (resolution : ℕ) (slice : ℤ)
    (hr : 1 ≤ resolution) :
    ∃ g1 g2 g3 g4 d1 d2 d3 d4 : String,
      compute lat lon resolution slice =
          g1 ++ "." ++ d1 ++ "|" ++ g2 ++ "." ++ d2 ++ "|"
            ++ g3 ++ "." ++ d3 ++ "|" ++ g4 ++ "." ++ d4 ∧
        d1.length = resolution ∧ d2.length = resolution ∧
        d3.length = resolution ∧ d4.length = resolution ∧
        (∀ c ∈ d1.data, c.isDigit = true) ∧ (∀ c ∈ d2.data, c.isDigit = true) ∧
        (∀ c ∈ d3.data, c.isDigit = true) ∧ (∀ c ∈ d4.data, c.isDigit = true) ∧
        (compute lat lon resolution slice).length =
          g1.length + g2.length + g3.length + g4.length + (4 * resolution + 3) + 4 := by
  obtain ⟨g1, d1, h1, hl1, hd1⟩ :=
    format_value_decomposition resolution (compute_tuple lat lon resolution slice).1 hr
  obtain ⟨g2, d2, h2, hl2, hd2⟩ :=
    format_value_decomposition resolution (compute_tuple lat lon resolution slice).2.1 hr
  obtain ⟨g3, d3, h3, hl3, hd3⟩ :=
    format_value_decomposition resolution (compute_tuple lat lon resolution slice).2.2.1 hr
  obtain ⟨g4, d4, h4, hl4, hd4⟩ :=
    format_value_decomposition resolution (compute_tuple lat lon resolution slice).2.2.2 hr
  have hkey : compute lat lon resolution slice =
      g1 ++ "." ++ d1 ++ "|" ++ g2 ++ "." ++ d2 ++ "|"
        ++ g3 ++ "." ++ d3 ++ "|" ++ g4 ++ "." ++ d4 := by
    rw [compute, format_tuple, h1, h2, h3, h4]
    simp [String.append_assoc]
  refine ⟨g1, g2, g3, g4, d1, d2, d3, d4, hkey, hl1, hl2, hl3, hl4, hd1, hd2, hd3, hd4, ?_⟩
  have hdot : (("." : String)).length = 1 := rfl
  have hbar : (("|" : String)).length = 1 := rfl
  rw [hkey]
  simp only [String.length_append, hdot, hbar, hl1, hl2, hl3, hl4]
  omega

/-- C9 amended witness: the decomposition at the first reference scenario,
whose key has 4 fields of 6 fractional digits and total length 43. -/
theorem compute_four_fields_witness :
    ∃ g1 g2 g3 g4 d1 d2 d3 d4 : String,
      compute (37.78452 : ℚ) (-122.39532 : ℚ) 6 10 =
          g1 ++ "." ++ d1 ++ "|" ++ g2 ++ "." ++ d2 ++ "|"
            ++ g3 ++ "." ++ d3 ++ "|" ++ g4 ++ "." ++ d4 ∧
        d1.length = 6 ∧ d2.length = 6 ∧ d3.length = 6 ∧ d4.length = 6 ∧
        (∀ c ∈ d1.data, c.isDigit = true) ∧ (∀ c ∈ d2.data, c.isDigit = true) ∧
        (∀ c ∈ d3.data, c.isDigit = true) ∧ (∀ c ∈ d4.data, c.isDigit = true) ∧
        (compute (37.78452 : ℚ) (-122.39532 : ℚ) 6 10).length =
          g1.length + g2.length + g3.length + g4.length + (4 * 6 + 3) + 4 :=
  compute_four_fields (37.78452 : ℚ) (-122.39532 : ℚ) 6 10 (by norm_num)

end Geobox

namespace Models

/-- Merging a concatenation of pages is merging them one after the other. -/
theorem merge_results_append (l1 : List Store) : ∀ (found l2 : List Store),
    merge_results found (l1 ++ l2) = merge_results (merge_results found l1) l2 := by
  induction l1 with
  | nil => intro found l2; rfl
  | cons r rest ih =>
    intro found l2
    rw [List.cons_append]
    by_cases h : found.any (fun s => s.name == r.name)
    · simp only [merge_results, if_pos h]
      exact ih found l2
    · simp only [merge_results, if_neg h]
      exact ih (found ++ [r]) l2

/-- The merge loop keeps the accumulator names pairwise distinct. -/
theorem merge_results_pairwise (results : List Store) : ∀ found : List Store,
    found.Pairwise (fun a b => a.name ≠ b.name) →
    (merge_results found results).Pairwise (fun a b => a.name ≠ b.name) := by
  induction results with
  | nil => intro found h; exact h
  | cons r rest ih =>
    intro found h
    by_cases hdup : found.any (fun s => s.name == r.name)
    · simp only [merge_results, if_pos hdup]
      exact ih found h
    · simp only [merge_results, if_neg hdup]
      apply ih
      rw [List.pairwise_append]
      refine ⟨h, by simp, ?_⟩
      intro a ha b hb
      rw [List.mem_singleton] at hb
      subst hb
      intro heq
      apply hdup
      rw [List.any_eq_true]
      exact ⟨a, ha, by simp [heq]⟩

/-- Every record in the merged accumulator was already there or is the
first record with its name in the merged pages, its name not yet in the
accumulator. -/
theorem merge_results_mem (results : List Store) : ∀ (found : List Store) (r : Store),
    r ∈ merge_results found results →
    r ∈ found ∨ ∃ l1 l2, results = l1 ++ r :: l2 ∧ (∀ x ∈ l1, x.name ≠ r.name) ∧
      ∀ x ∈ found, x.name ≠ r.name := by
  induction results with
  | nil => intro found r h; exact Or.inl h
  | cons y rest ih =>
    intro found r h
    by_cases hdup : found.any (fun s => s.name == y.name)
    · simp only [merge_results, if_pos hdup] at h
      rcases ih found r h with hin | ⟨l1, l2, heq, hl1, hacc⟩
      · exact Or.inl hin
      · right
        refine ⟨y :: l1, l2, by rw [heq, List.cons_append], ?_, hacc⟩
        intro x hx
        rcases List.mem_cons.mp hx with rfl | hx2
        · rw [List.any_eq_true] at hdup
          obtain ⟨s, hs, hsname⟩ := hdup
          rw [beq_iff_eq] at hsname
          intro hyr
          exact hacc s hs (by rw [hsname, hyr])
        · exact hl1 x hx2
    · simp only [merge_results, if_neg hdup] at h
      rcases ih _ r h with hin | ⟨l1, l2, heq, hl1, hacc⟩
      · rcases List.mem_append.mp hin with hf | hy
        · exact Or.inl hf
        · rw [List.mem_singleton] at hy
          subst hy
          right
          refine ⟨[], rest, rfl, by simp, ?_⟩
          intro x hx heq2
          apply hdup
          rw [List.any_eq_true]
          exact ⟨x, hx, by simp [heq2]⟩
      · right
        refine ⟨y :: l1, l2, by rw [heq, List.cons_append], ?_, ?_⟩
        · intro x hx
          rcases List.mem_cons.mp hx with rfl | hx2
          · exact hacc x (List.mem_append_right _ (List.mem_singleton_self x))
          · exact hl1 x hx2
        · intro x hx
          exact hacc x (List.mem_append_left _ hx)

/-- A name present in the accumulator or in the merged pages is present in
the merged accumulator. -/
theorem merge_results_name_of_mem (results : List Store) : ∀ (found : List Store) (n : String),
    ((∃ s ∈ found, s.name = n) ∨ (∃ s ∈ results, s.name = n)) →
    ∃ s ∈ merge_results found results, s.name = n := by
  induction results with
  | nil =>
    intro found n h
    rcases h with h | h
    · exact h
    · simp at h
  | cons y rest ih =>
    intro found n h
    by_cases hdup : found.any (fun s => s.name == y.name)
    · simp only [merge_results, if_pos hdup]
      apply ih
      rcases h with h | h
      · exact Or.inl h
      · obtain ⟨s, hs, hn⟩ := h
        rcases List.mem_cons.mp hs with rfl | hs2
        · left
          rw [List.any_eq_true] at hdup
          obtain ⟨t, ht, htname⟩ := hdup
          rw [beq_iff_eq] at htname
          exact ⟨t, ht, by rw [htname, hn]⟩
        · exact Or.inr ⟨s, hs2, hn⟩
    · simp only [merge_results, if_neg hdup]
      apply ih
      rcases h with h | h
      · obtain ⟨s, hs, hn⟩ := h
        exact Or.inl ⟨s, List.mem_append_left _ hs, hn⟩
      · obtain ⟨s, hs, hn⟩ := h
        rcases List.mem_cons.mp hs with rfl | hs2
        · exact Or.inl ⟨s, List.mem_append_right _ (List.mem_singleton_self s), hn⟩
        · exact Or.inr ⟨s, hs2, hn⟩

/-- In a list with pairwise distinct names, a name that occurs occurs
exactly once. -/
theorem countP_name_eq_one (n : String) : ∀ l : List Store,
    l.Pairwise (fun a b => a.name ≠ b.name) → (∃ r ∈ l, r.name = n) →
    l.countP (fun r => r.name == n) = 1 := by
  intro l
  induction l with
  | nil =>
    intro _ hex
    simp at hex
  | cons a t ih =>
    intro hp hex
    obtain ⟨ha, hp2⟩ := List.pairwise_cons.mp hp
    by_cases han : a.name = n
    · have ht0 : t.countP (fun r => r.name == n) = 0 := by
        rw [List.countP_eq_zero]
        intro x hx
        simp only [beq_iff_eq]
        intro hxn
        exact ha x hx (by rw [han, hxn])
      rw [List.countP_cons, ht0]
      simp [han]
    · rw [List.countP_cons]
      have hex2 : ∃ r ∈ t, r.name = n := by
        obtain ⟨r, hr, hname⟩ := hex
        rcases List.mem_cons.mp hr with rfl | hrt
        · exact absurd hname han
        · exact ⟨r, hrt, hname⟩
      rw [ih hp2 hex2]
      simp [han]

/-- The loop issues at most one lookup per table entry and only for tiers
not below the minimum. -/
theorem query_loop_probes (fetch : String → List Store) (lat lon : ℚ)
    (max_results : ℕ) (min_params : ℕ × ℤ) :
    ∀ (cfgs : List (ℕ × ℤ × Bool)) (found : List Store),
      (query_loop fetch lat lon max_results min_params cfgs found).2.length
          ≤ cfgs.length ∧
        ∀ p ∈ (query_loop fetch lat lon max_results min_params cfgs found).2,
          ¬ params_lt p min_params := by
  intro cfgs
  induction cfgs with
  | nil =>
    intro found
    simp [query_loop]
  | cons p rest ih =>
    intro found
    by_cases h1 : max_results ≤ found.length
    · simp [query_loop, h1]
    · by_cases h2 : params_lt p min_params
      · simp [query_loop, h1, h2]
      · simp only [query_loop, if_neg h1, if_neg h2]
        obtain ⟨ihl, ihm⟩ :=
          ih (merge_results found (fetch (Geobox.compute lat lon p.1 p.2.1)))
        constructor
        · simpa using ihl
        · intro q hq
          rcases List.mem_cons.mp hq with rfl | hq2
          · exact h2
          · exact ihm q hq2

/-- The loop accumulator is the merge of the fetched pages of the probed
tiers, in order, into the starting accumulator. -/
theorem query_loop_found_eq (fetch : String → List Store) (lat lon : ℚ)
    (max_results : ℕ) (min_params : ℕ × ℤ) :
    ∀ (cfgs : List (ℕ × ℤ × Bool)) (found : List Store),
      (query_loop fetch lat lon max_results min_params cfgs found).1
        = merge_results found
            ((query_loop fetch lat lon max_results min_params cfgs found).2.flatMap
              (fun p => fetch (Geobox.compute lat lon p.1 p.2.1))) := by
  intro cfgs
  induction cfgs with
  | nil =>
    intro found
    simp [query_loop]
    rfl
  | cons p rest ih =>
    intro found
    by_cases h1 : max_results ≤ found.length
    · simp [query_loop, h1]
      rfl
    · by_cases h2 : params_lt p min_params
      · simp [query_loop, h1, h2]
        rfl
      · simp only [query_loop, if_neg h1, if_neg h2, List.flatMap_cons]
        rw [merge_results_append]
        exact ih (merge_results found (fetch (Geobox.compute lat lon p.1 p.2.1)))

/-- Unfolding of one probed tier of the loop. -/
theorem query_loop_cons (fetch : String → List Store) (lat lon : ℚ)
    (max_results : ℕ) (min_params : ℕ × ℤ) (p : ℕ × ℤ × Bool)
    (rest : List (ℕ × ℤ × Bool)) (found : List Store)
    (h1 : ¬ max_results ≤ found.length) (h2 : ¬ params_lt p min_params) :
    query_loop fetch lat lon max_results min_params (p :: rest) found
      = ((query_loop fetch lat lon max_results min_params rest
            (merge_results found (fetch (Geobox.compute lat lon p.1 p.2.1)))).1,
          p :: (query_loop fetch lat lon max_results min_params rest
            (merge_results found (fetch (Geobox.compute lat lon p.1 p.2.1)))).2) := by
  simp [query_loop, h1, h2]

/-- C6: for every query point, max_results and min_params, the concentric
loop of Store.query issues at most one store lookup per configuration
table entry (so never more than the table length), and never issues a
lookup for a tier that compares below min_params, the code ordering of
coarser than the minimum. -/
theorem query_lookups_bounded (fetch : String → List Store) (lat lon : ℚ)
    (max_results : ℕ) (min_params : ℕ × ℤ) :
    (query_loop fetch lat lon max_results min_params GEOBOX_CONFIGS []).2.length
        ≤ GEOBOX_CONFIGS.length ∧
      ∀ p ∈ (query_loop fetch lat lon max_results min_params GEOBOX_CONFIGS []).2,
        ¬ params_lt p min_params :=
  query_loop_probes fetch lat lon max_results min_params GEOBOX_CONFIGS []

/-- C6 witness: with an empty store the first tier is probed and is not
below the minimum (2, 5). -/
theorem query_lookups_bounded_witness : ¬ params_lt (4, 5, true) (2, 5) :=
  (query_lookups_bounded (fun _ => []) 0 0 1 (2, 5)).2 (4, 5, true) (by decide)

/-- C10: the identity used by the dedup of Store.query is the name field:
the returned list never holds two records with equal names, and every
returned record is the first record carrying its name in the concatenation
of the fetched pages in tier then fetch order. -/
theorem query_dedup_by_name (fetch : String → List Store) (dist : Store → ℚ)
    (store_ord : Store → Store → Bool) (lat lon : ℚ) (max_results : ℕ)
    (min_params : ℕ × ℤ) :
    (query fetch dist store_ord lat lon max_results min_params).Pairwise
        (fun a b => a.2.name ≠ b.2.name) ∧
      ∀ pr ∈ query fetch dist store_ord lat lon max_results min_params,
        ∃ l1 l2,
          (query_loop fetch lat lon max_results min_params GEOBOX_CONFIGS []).2.flatMap
              (fun p => fetch (Geobox.compute lat lon p.1 p.2.1))
            = l1 ++ pr.2 :: l2 ∧ ∀ x ∈ l1, x.name ≠ pr.2.name := by
  have hfound := query_loop_found_eq fetch lat lon max_results min_params GEOBOX_CONFIGS []
  have hperm : List.Perm (query fetch dist store_ord lat lon max_results min_params)
      (((query_loop fetch lat lon max_results min_params GEOBOX_CONFIGS []).1).map
        (fun s => (dist s, s))) := List.perm_insertionSort _ _
  have hpair : ((query_loop fetch lat lon max_results min_params GEOBOX_CONFIGS []).1).Pairwise
      (fun a b => a.name ≠ b.name) := by
    rw [hfound]
    exact merge_results_pairwise _ [] List.Pairwise.nil
  constructor
  · have h1 : (((query_loop fetch lat lon max_results min_params GEOBOX_CONFIGS []).1).map
        (fun s => (dist s, s))).Pairwise (fun a b => a.2.name ≠ b.2.name) := by
      rw [List.pairwise_map]
      exact hpair
    exact (List.Perm.pairwise_iff (fun h => Ne.symm h) hperm).mpr h1
  · intro pr hpr
    have hpr2 : pr ∈ ((query_loop fetch lat lon max_results min_params GEOBOX_CONFIGS []).1).map
        (fun s => (dist s, s)) := hperm.mem_iff.mp hpr
    obtain ⟨s, hs, hseq⟩ := List.mem_map.mp hpr2
    have hs2 : pr.2 = s := by rw [← hseq]
    rw [hs2]
    rw [hfound] at hs
    rcases merge_results_mem _ [] s hs with hin | ⟨l1, l2, heq, hl1, _⟩
    · simp at hin
    · exact ⟨l1, l2, heq, hl1⟩

/-- C10 witness: with a store returning the single record named a for
every key, that record is returned and is the first of its name in the
fetched stream. -/
theorem query_dedup_by_name_witness :
    ∃ l1 l2,
      (query_loop (fun _ => [⟨"a", 0, 0⟩]) 0 0 1 (2, 5) GEOBOX_CONFIGS []).2.flatMap
          (fun p => (fun _ => [(⟨"a", 0, 0⟩ : Store)]) (Geobox.compute 0 0 p.1 p.2.1))
        = l1 ++ (⟨"a", 0, 0⟩ : Store) :: l2 ∧
        ∀ x ∈ l1, x.name ≠ (⟨"a", 0, 0⟩ : Store).name :=
  (query_dedup_by_name (fun _ => [⟨"a", 0, 0⟩]) (fun _ => 0) (fun _ _ => true)
      0 0 1 (2, 5)).2 ((0 : ℚ), ⟨"a", 0, 0⟩) (by decide)

/-- C5 counterexample: two distinct records with the same name land in the
same finest tier cell (the store returns both of them for every tier), yet
the query returns a single result, so the second record is never
returned: the dedup key is the name, not the record identity. -/
theorem query_same_name_counterexample :
    (⟨"Joe", 37.78452, -122.39532⟩ : Store) ≠ ⟨"Joe", 37.78453, -122.39531⟩ ∧
      (query (fun _ => [⟨"Joe", 37.78452, -122.39532⟩, ⟨"Joe", 37.78453, -122.39531⟩])
          (fun _ => 0) (fun _ _ => true) 37.78452 (-122.39532) 10 (2, 5)).length = 1 ∧
      ¬ ∃ pr ∈ query (fun _ => [⟨"Joe", 37.78452, -122.39532⟩, ⟨"Joe", 37.78453, -122.39531⟩])
          (fun _ => 0) (fun _ _ => true) 37.78452 (-122.39532) 10 (2, 5),
          pr.2 = (⟨"Joe", 37.78453, -122.39531⟩ : Store) := by
  decide

/-- C5 amended: when the two records landing in the same finest tier cell
carry distinct names, the query returns each of them exactly once, even
when later coarser tiers return both again; records already accumulated
are neither duplicated nor overwritten. -/
theorem query_returns_both_once (fetch : String → List Store) (dist : Store → ℚ)
    (store_ord : Store → Store → Bool) (lat lon : ℚ) (max_results : ℕ)
    (min_params : ℕ × ℤ) (A B : Store)
    (hmax : 1 ≤ max_results) (hmin : ¬ params_lt (4, 5, true) min_params)
    (hA : A ∈ fetch (Geobox.compute lat lon 4 5))
    (hB : B ∈ fetch (Geobox.compute lat lon 4 5))
    (_hname : A.name ≠ B.name) :
    (query fetch dist store_ord lat lon max_results min_params).countP
        (fun pr => pr.2.name == A.name) = 1 ∧
      (query fetch dist store_ord lat lon max_results min_params).countP
        (fun pr => pr.2.name == B.name) = 1 := by
  have h0 : ¬ max_results ≤ ([] : List Store).length := by
    simp only [List.length_nil]
    omega
  have hcons := query_loop_cons fetch lat lon max_results min_params (4, 5, true)
    [(3, 2, true), (3, 8, false), (3, 16, false), (2, 5, false)] [] h0 hmin
  have hstream : (query_loop fetch lat lon max_results min_params GEOBOX_CONFIGS []).2.flatMap
        (fun p => fetch (Geobox.compute lat lon p.1 p.2.1))
      = fetch (Geobox.compute lat lon 4 5)
        ++ (query_loop fetch lat lon max_results min_params
              [(3, 2, true), (3, 8, false), (3, 16, false), (2, 5, false)]
              (merge_results [] (fetch (Geobox.compute lat lon 4 5)))).2.flatMap
            (fun p => fetch (Geobox.compute lat lon p.1 p.2.1)) := by
    show (query_loop fetch lat lon max_results min_params
        ((4, 5, true) :: [(3, 2, true), (3, 8, false), (3, 16, false), (2, 5, false)])
        []).2.flatMap _ = _
    rw [hcons]
    rw [List.flatMap_cons]
  have hfound := query_loop_found_eq fetch lat lon max_results min_params GEOBOX_CONFIGS []
  have hpair : ((query_loop fetch lat lon max_results min_params GEOBOX_CONFIGS []).1).Pairwise
      (fun a b => a.name ≠ b.name) := by
    rw [hfound]
    exact merge_results_pairwise _ [] List.Pairwise.nil
  have hexA : ∃ s ∈ (query_loop fetch lat lon max_results min_params GEOBOX_CONFIGS []).1,
      s.name = A.name := by
    rw [hfound]
    apply merge_results_name_of_mem
    right
    rw [hstream]
    exact ⟨A, List.mem_append_left _ hA, rfl⟩
  have hexB : ∃ s ∈ (query_loop fetch lat lon max_results min_params GEOBOX_CONFIGS []).1,
      s.name = B.name := by
    rw [hfound]
    apply merge_results_name_of_mem
    right
    rw [hstream]
    exact ⟨B, List.mem_append_left _ hB, rfl⟩
  have htransfer : ∀ n : String,
      (query fetch dist store_ord lat lon max_results min_params).countP
          (fun pr => pr.2.name == n)
        = ((query_loop fetch lat lon max_results min_params GEOBOX_CONFIGS []).1).countP
            (fun s => s.name == n) := by
    intro n
    rw [query]
    rw [(List.perm_insertionSort _ _).countP_eq]
    rw [List.countP_map]
    rfl
  rw [htransfer, htransfer]
  exact ⟨countP_name_eq_one A.name _ hpair hexA, countP_name_eq_one B.name _ hpair hexB⟩

/-- C5 amended witness: two records named a and b in the finest tier cell
are each returned exactly once. -/
theorem query_returns_both_once_witness :
    (query (fun _ => [⟨"a", 1, 2⟩, ⟨"b", 3, 4⟩]) (fun _ => 0) (fun _ _ => true)
        0 0 10 (2, 5)).countP (fun pr => pr.2.name == (⟨"a", 1, 2⟩ : Store).name) = 1 ∧
      (query (fun _ => [⟨"a", 1, 2⟩, ⟨"b", 3, 4⟩]) (fun _ => 0) (fun _ _ => true)
        0 0 10 (2, 5)).countP (fun pr => pr.2.name == (⟨"b", 3, 4⟩ : Store).name) = 1 :=
  query_returns_both_once (fun _ => [⟨"a", 1, 2⟩, ⟨"b", 3, 4⟩]) (fun _ => 0)
    (fun _ _ => true) 0 0 10 (2, 5) ⟨"a", 1, 2⟩ ⟨"b", 3, 4⟩
    (by decide) (by decide) (by decide) (by decide) (by decide)

/-- C7 counterexample: two records at equal distance are returned in the
reverse of the order in which the loop accumulated them, because the
Python sort of (distance, store) tuples falls back to comparing the store
objects as a secondary key on distance ties (modelled here by the object
ordering that puts the record named b first). -/
theorem query_tie_order_counterexample :
    (query_loop (fun _ => [⟨"a", 0, 0⟩, ⟨"b", 0, 0⟩]) 0 0 1 (2, 5)
        GEOBOX_CONFIGS []).1 = [⟨"a", 0, 0⟩, ⟨"b", 0, 0⟩] ∧
      query (fun _ => [⟨"a", 0, 0⟩, ⟨"b", 0, 0⟩]) (fun _ => 0)
          (fun s _ => s.name == "b") 0 0 1 (2, 5)
        = [(0, ⟨"b", 0, 0⟩), (0, ⟨"a", 0, 0⟩)] := by
  decide

/-- C7 amended: whatever total and transitive object ordering the
interpreter applies to store objects on distance ties, the list returned
by Store.query is sorted ascending by distance: every adjacent pair of
results has nondecreasing distances. The tie order is decided by that
object ordering, not by stable input order. -/
theorem query_sorted_by_distance (fetch : String → List Store) (dist : Store → ℚ)
    (store_ord : Store → Store → Bool) (lat lon : ℚ) (max_results : ℕ)
    (min_params : ℕ × ℤ)
    (htot : ∀ a b : Store, store_ord a b = true ∨ store_ord b a = true)
    (htrans : ∀ a b c : Store, store_ord a b = true → store_ord b c = true →
      store_ord a c = true) :
    (query fetch dist store_ord lat lon max_results min_params).Chain'
      (fun a b => a.1 ≤ b.1) := by
  haveI : IsTotal (ℚ × Store) (pair_lt store_ord) := ⟨by
    intro a b
    simp only [pair_lt]
    rcases lt_trichotomy a.1 b.1 with h | h | h
    · exact Or.inl (Or.inl h)
    · rcases htot a.2 b.2 with ho | ho
      · exact Or.inl (Or.inr ⟨h, ho⟩)
      · exact Or.inr (Or.inr ⟨h.symm, ho⟩)
    · exact Or.inr (Or.inl h)⟩
  haveI : IsTrans (ℚ × Store) (pair_lt store_ord) := ⟨by
    intro a b c hab hbc
    simp only [pair_lt] at hab hbc ⊢
    rcases hab with h1 | ⟨h1, o1⟩
    · rcases hbc with h2 | ⟨h2, o2⟩
      · exact Or.inl (lt_trans h1 h2)
      · exact Or.inl (h2 ▸ h1)
    · rcases hbc with h2 | ⟨h2, o2⟩
      · exact Or.inl (h1 ▸ h2)
      · exact Or.inr ⟨h1.trans h2, htrans _ _ _ o1 o2⟩⟩
  have hs : List.Sorted (pair_lt store_ord)
      (List.insertionSort (pair_lt store_ord)
        (((query_loop fetch lat lon max_results min_params GEOBOX_CONFIGS []).1).map
          (fun s => (dist s, s)))) := List.sorted_insertionSort _ _
  have hc := List.Pairwise.chain' hs
  exact hc.imp (fun a b h => by
    rcases h with h | ⟨h, _⟩
    · exact le_of_lt h
    · exact le_of_eq h)

/-- C7 amended witness: with the trivial object ordering and an empty tie
set the returned list is sorted by distance. -/
theorem query_sorted_by_distance_witness :
    (query (fun _ => [⟨"a", 0, 0⟩, ⟨"b", 0, 0⟩]) (fun _ => 0) (fun _ _ => true)
        0 0 1 (2, 5)).Chain' (fun a b => a.1 ≤ b.1) :=
  query_sorted_by_distance (fun _ => [⟨"a", 0, 0⟩, ⟨"b", 0, 0⟩]) (fun _ => 0)
    (fun _ _ => true) 0 0 1 (2, 5) (fun _ _ => Or.inl rfl) (fun _ _ _ _ _ => rfl)

end Models

end GeoboxVerification
